import Mathlib

/-!
Verification of the client-side feature-preprocessing pipeline described by
the repository's specification: a sequence of named, stateful transform
steps (MinMaxScaler, OrdinalEncoder, OneHotEncoder) composed by a Pipeline
with fit/transform/fit_transform and serialize/deserialize persistence.

The concrete transformer implementations live in the vendor's Snowpark ML
library, outside this repository's two notebooks; the notebooks are only
callers.  The step semantics below are therefore modelled from the spec
(sections 3, 4, 6 and 7), while the notebook-level facts (pipeline
construction, dump-before-fit ordering, re-fit in the modeling notebook)
are embedded from the notebook source.  Real numbers are modelled as
rationals (exact arithmetic), as the spec leaves floating-point rounding
to the caller.
-/

set_option autoImplicit false

deriving instance DecidableEq for Except

namespace SnowPipe

/-- A scalar cell value: numeric or categorical/string (spec section 3,
"Dataset ... scalar values of a declared semantic type"). -/
inductive Value where
  | num (q : ℚ)
  | str (s : String)
deriving DecidableEq

/-- A dataset: an ordered collection of named columns, each a sequence of
scalar values (spec section 3). -/
structure Dataset where
  cols : List (String × List Value)
deriving DecidableEq

/-- First-match association lookup by string key, used for dataset columns
and per-column fitted state alike. -/
def lookupStr {α : Type} : List (String × α) → String → Option α
  | [], _ => none
  | p :: rest, c => if p.1 = c then some p.2 else lookupStr rest c

/-- Read a named column. -/
def Dataset.getCol (d : Dataset) (c : String) : Option (List Value) :=
  lookupStr d.cols c

/-- Write a named column: overwrite the first existing column of that name
in place, else append (spec section 3: output columns may intentionally
overwrite an input column). -/
def setColList : List (String × List Value) → String → List Value → List (String × List Value)
  | [], c, vs => [(c, vs)]
  | p :: rest, c, vs => if p.1 = c then (c, vs) :: rest else p :: setColList rest c vs

def Dataset.setCol (d : Dataset) (c : String) (vs : List Value) : Dataset :=
  ⟨setColList d.cols c vs⟩

def Dataset.addCols (d : Dataset) (cs : List (String × List Value)) : Dataset :=
  cs.foldl (fun d p => d.setCol p.1 p.2) d

/-- Step-level error kinds (spec section 7). -/
inductive TError where
  | notFitted
  | unknownCategory (col : String) (value : String)
  | columnNotFound (col : String)
  | typeMismatch (col : String)
  | emptyColumn (col : String)
  | configError
  | serializationError
deriving DecidableEq

/-- Pipeline-level error: the failing step's error annotated with the
step's name (spec section 7: "annotate the error with the failing step's
name"). -/
inductive PError where
  | atStep (step : String) (e : TError)
deriving DecidableEq

def Value.asNum : Value → Option ℚ
  | .num q => some q
  | .str _ => none

def Value.asStr : Value → Option String
  | .num _ => none
  | .str s => some s

/-- Numeric contents of a column; `columnNotFound` / `typeMismatch` on
failure (spec section 7). -/
def colNums (d : Dataset) (c : String) : Except TError (List ℚ) :=
  match d.getCol c with
  | none => .error (.columnNotFound c)
  | some vs =>
    match vs.mapM Value.asNum with
    | none => .error (.typeMismatch c)
    | some qs => .ok qs

/-- String contents of a column. -/
def colStrs (d : Dataset) (c : String) : Except TError (List String) :=
  match d.getCol c with
  | none => .error (.columnNotFound c)
  | some vs =>
    match vs.mapM Value.asStr with
    | none => .error (.typeMismatch c)
    | some ss => .ok ss

/-! ### MinMaxScaler (spec section 4.1) -/

structure MMSConfig where
  input_cols : List String
  output_cols : List String
  clip : Bool
deriving DecidableEq

/-- Fitted state of a MinMaxScaler: observed (min, max) per input column. -/
def MMSState : Type := List (String × (ℚ × ℚ))

instance : DecidableEq MMSState := by
  unfold MMSState
  infer_instance

/-- Fit one column: minimum and maximum observed numeric value. -/
def fitOneMMS (d : Dataset) (c : String) : Except TError (ℚ × ℚ) :=
  match colNums d c with
  | .error e => .error e
  | .ok [] => .error (.emptyColumn c)
  | .ok (q :: rest) => .ok (rest.foldl min q, rest.foldl max q)

def mmsFit (cfg : MMSConfig) (d : Dataset) : Except TError MMSState :=
  if cfg.input_cols.length = cfg.output_cols.length then
    cfg.input_cols.mapM (fun c => (fitOneMMS d c).map (fun mm => (c, mm)))
  else .error .configError

/-- The scaling map: `(v - min) / (max - min)`; a constant column
(`max = min`) scales to 0; with `clip` the result is clamped into
`[0, 1]` (spec section 4.1). -/
def mmsScale (mn mx : ℚ) (clip : Bool) (v : ℚ) : ℚ :=
  let s := if mx = mn then 0 else (v - mn) / (mx - mn)
  if clip then max 0 (min 1 s) else s

def mmsTransformCols (st : MMSState) (clip : Bool) :
    List (String × String) → Dataset → Except TError Dataset
  | [], d => .ok d
  | (ci, co) :: rest, d =>
    match lookupStr st ci with
    | none => .error .notFitted
    | some (mn, mx) =>
      match colNums d ci with
      | .error e => .error e
      | .ok qs =>
        mmsTransformCols st clip rest
          (d.setCol co (qs.map (fun q => .num (mmsScale mn mx clip q))))

/-! ### OrdinalEncoder (spec section 4.2) -/

structure OEConfig where
  input_cols : List String
  output_cols : List String
  categories : List (String × List String)
deriving DecidableEq

/-- Fitted state of an OrdinalEncoder: the ordered category vocabulary per
input column; a category's rank is its position in that list. -/
def OEState : Type := List (String × List String)

instance : DecidableEq OEState := by
  unfold OEState
  infer_instance

/-- Position of the first occurrence of `s` in `vocab`, if present: the
rank assigned by the encoder. -/
def rankOf (vocab : List String) (s : String) : Option ℕ :=
  match vocab with
  | [] => none
  | a :: t => if a = s then some 0 else (rankOf t s).map (· + 1)

/-- Deterministic first-seen distinct-value vocabulary derivation for a
learned vocabulary (spec section 3 and design note: first-seen order). -/
def firstSeenAux (seen : List String) : List String → List String
  | [] => []
  | s :: rest =>
    if s ∈ seen then firstSeenAux seen rest
    else s :: firstSeenAux (s :: seen) rest

def firstSeen (l : List String) : List String := firstSeenAux [] l

/-- Fit one column of an OrdinalEncoder: an explicitly supplied vocabulary
is taken as-is (no data scan); otherwise the vocabulary is learned from
the data in first-seen order. -/
def oeFitOne (cfg : OEConfig) (d : Dataset) (c : String) :
    Except TError (String × List String) :=
  match lookupStr cfg.categories c with
  | some vocab => .ok (c, vocab)
  | none => (colStrs d c).map (fun ss => (c, firstSeen ss))

def oeFit (cfg : OEConfig) (d : Dataset) : Except TError OEState :=
  if cfg.input_cols.length = cfg.output_cols.length then
    cfg.input_cols.mapM (oeFitOne cfg d)
  else .error .configError

/-- Encode a column of category labels to their integer ranks; a label
outside the fitted vocabulary is an `unknownCategory` error, never a
default rank (spec section 4.2). -/
def encodeOrd (c : String) (vocab : List String) :
    List String → Except TError (List Value)
  | [] => .ok []
  | s :: rest =>
    match rankOf vocab s with
    | none => .error (.unknownCategory c s)
    | some i => (encodeOrd c vocab rest).map (fun vs => .num i :: vs)

def oeTransformCols (st : OEState) :
    List (String × String) → Dataset → Except TError Dataset
  | [], d => .ok d
  | (ci, co) :: rest, d =>
    match lookupStr st ci with
    | none => .error .notFitted
    | some vocab =>
      match colStrs d ci with
      | .error e => .error e
      | .ok ss =>
        match encodeOrd ci vocab ss with
        | .error e => .error e
        | .ok vs => oeTransformCols st rest (d.setCol co vs)

/-! ### OneHotEncoder (spec section 4.3) -/

structure OHEConfig where
  input_cols : List String
  output_cols : List String
deriving DecidableEq

/-- Fitted state of a OneHotEncoder: the ordered distinct category
vocabulary per input column. -/
def OHEState : Type := List (String × List String)

instance : DecidableEq OHEState := by
  unfold OHEState
  infer_instance

def oheFit (cfg : OHEConfig) (d : Dataset) : Except TError OHEState :=
  if cfg.input_cols.length = cfg.output_cols.length then
    cfg.input_cols.mapM (fun c => (colStrs d c).map (fun ss => (c, firstSeen ss)))
  else .error .configError

/-- Deterministic indicator column name from the base output name and the
category label (spec section 4.3). -/
def oheName (base cat : String) : String := base ++ "_" ++ cat

/-- Indicator column for one category: 1 where the row's label matches,
0 otherwise. -/
def oheIndicator (ss : List String) (cat : String) : List Value :=
  ss.map (fun s => .num (if s = cat then 1 else 0))

/-- One indicator output column per vocabulary entry of one input column. -/
def oheCols (co : String) (vocab : List String) (ss : List String) :
    List (String × List Value) :=
  vocab.map (fun cat => (oheName co cat, oheIndicator ss cat))

/-- First label of the column that is outside the vocabulary, if any. -/
def firstUnknown (vocab : List String) : List String → Option String
  | [] => none
  | s :: rest => if s ∈ vocab then firstUnknown vocab rest else some s

def oheTransformCols (st : OHEState) :
    List (String × String) → Dataset → Except TError Dataset
  | [], d => .ok d
  | (ci, co) :: rest, d =>
    match lookupStr st ci with
    | none => .error .notFitted
    | some vocab =>
      match colStrs d ci with
      | .error e => .error e
      | .ok ss =>
        match firstUnknown vocab ss with
        | some s => .error (.unknownCategory ci s)
        | none => oheTransformCols st rest (d.addCols (oheCols co vocab ss))

/-! ### Transform steps and the Pipeline (spec sections 2 and 4.4) -/

/-- A transform step: its configuration together with its optional fitted
state (`none` until `fit`, spec section 3 "FittedState"). -/
inductive Step where
  | mms (cfg : MMSConfig) (st : Option MMSState)
  | oe (cfg : OEConfig) (st : Option OEState)
  | ohe (cfg : OHEConfig) (st : Option OHEState)
deriving DecidableEq

def stepFittedB : Step → Bool
  | .mms _ st => st.isSome
  | .oe _ st => st.isSome
  | .ohe _ st => st.isSome

/-- `fit` learns a step's state from the dataset and returns the fitted
step; the configuration is unchanged. -/
def stepFit : Step → Dataset → Except TError Step
  | .mms cfg _, d => (mmsFit cfg d).map (fun st => .mms cfg (some st))
  | .oe cfg _, d => (oeFit cfg d).map (fun st => .oe cfg (some st))
  | .ohe cfg _, d => (oheFit cfg d).map (fun st => .ohe cfg (some st))

/-- `transform` applies a fitted step; an un-fit step fails with
`notFitted` before any data is touched (spec section 3 invariant). -/
def stepTransform : Step → Dataset → Except TError Dataset
  | .mms _ none, _ => .error .notFitted
  | .mms cfg (some st), d => mmsTransformCols st cfg.clip (cfg.input_cols.zip cfg.output_cols) d
  | .oe _ none, _ => .error .notFitted
  | .oe cfg (some st), d => oeTransformCols st (cfg.input_cols.zip cfg.output_cols) d
  | .ohe _ none, _ => .error .notFitted
  | .ohe cfg (some st), d => oheTransformCols st (cfg.input_cols.zip cfg.output_cols) d

/-- A pipeline: an ordered sequence of named transform steps. -/
structure Pipeline where
  steps : List (String × Step)
deriving DecidableEq

def Pipeline.fitted (p : Pipeline) : Bool :=
  p.steps.all (fun ns => stepFittedB ns.2)

/-- `transform`: each step's `transform` in declared order, chaining
outputs; the first failing step's error is annotated with its name. -/
def pipelineTransformAux : List (String × Step) → Dataset → Except PError Dataset
  | [], d => .ok d
  | (n, s) :: rest, d =>
    match stepTransform s d with
    | .error e => .error (.atStep n e)
    | .ok d' => pipelineTransformAux rest d'

def pipelineTransform (p : Pipeline) (d : Dataset) : Except PError Dataset :=
  pipelineTransformAux p.steps d

/-- `fit` / `fit_transform` core: each step is fit then immediately
transformed in step order, each step's output dataset feeding the next
step's input dataset (spec section 4.4). -/
def pipelineFitTransformAux :
    List (String × Step) → Dataset → Except PError (List (String × Step) × Dataset)
  | [], d => .ok ([], d)
  | (n, s) :: rest, d =>
    match stepFit s d with
    | .error e => .error (.atStep n e)
    | .ok s' =>
      match stepTransform s' d with
      | .error e => .error (.atStep n e)
      | .ok d' =>
        match pipelineFitTransformAux rest d' with
        | .error e => .error e
        | .ok (rest', dout) => .ok ((n, s') :: rest', dout)

/-- `fit` retains only the fitted state, discarding the final transformed
dataset (spec section 4.4). -/
def pipelineFit (p : Pipeline) (d : Dataset) : Except PError Pipeline :=
  (pipelineFitTransformAux p.steps d).map (fun r => ⟨r.1⟩)

/-- `fit_transform` returns the fitted pipeline with the final transformed
dataset. -/
def pipelineFitTransform (p : Pipeline) (d : Dataset) :
    Except PError (Pipeline × Dataset) :=
  (pipelineFitTransformAux p.steps d).map (fun r => (⟨r.1⟩, r.2))

/-! ### Persistence (spec sections 4.4 and 6) -/

def stepTypeName : Step → String
  | .mms .. => "MinMaxScaler"
  | .oe .. => "OrdinalEncoder"
  | .ohe .. => "OneHotEncoder"

/-- The persisted pipeline blob: an ordered list of
`(step_name, step_type, configuration + fitted_state)` entries
(spec section 6). -/
structure Blob where
  entries : List (String × String × Step)
deriving DecidableEq

def serializePipeline (p : Pipeline) : Blob :=
  ⟨p.steps.map (fun ns => (ns.1, stepTypeName ns.2, ns.2))⟩

/-- Reconstruct one step, validating the self-describing type tag against
the payload (`serializationError` on mismatch, spec section 7). -/
def deserializeEntry (e : String × String × Step) : Except TError (String × Step) :=
  if e.2.1 = stepTypeName e.2.2 then .ok (e.1, e.2.2) else .error .serializationError

def deserializePipeline (b : Blob) : Except TError Pipeline :=
  (b.entries.mapM deserializeEntry).map (fun l => ⟨l⟩)

/-! ### The notebooks' pipeline (embedded from the source)

`2_snowpark_ml_feature_transformations.ipynb` builds a two-step pipeline
(OrdinalEncoder "OE" with explicit category vocabularies, then
MinMaxScaler "MMS" with `clip=True` writing the numerical columns back in
place), dumps it to `preprocessing_pipeline.joblib` BEFORE calling `fit`,
and only then runs `fit(diamonds_df).transform(diamonds_df)`.  The
modeling notebook loads that blob and re-fits it on the training split. -/

def CATEGORICAL_COLUMNS : List String := ["CUT", "COLOR", "CLARITY"]

def CATEGORICAL_COLUMNS_OE : List String := ["CUT_OE", "COLOR_OE", "CLARITY_OE"]

def NUMERICAL_COLUMNS : List String := ["CARAT", "DEPTH", "TABLE_PCT", "X", "Y", "Z"]

def notebookCategories : List (String × List String) :=
  [("CUT", ["IDEAL", "PREMIUM", "VERY_GOOD", "GOOD", "FAIR"]),
   ("CLARITY", ["IF", "VVS1", "VVS2", "VS1", "VS2", "SI1", "SI2", "I1", "I2", "I3"]),
   ("COLOR", ["D", "E", "F", "G", "H", "I", "J"])]

def notebookPipeline : Pipeline :=
  ⟨[("OE", .oe ⟨CATEGORICAL_COLUMNS, CATEGORICAL_COLUMNS_OE, notebookCategories⟩ none),
    ("MMS", .mms ⟨NUMERICAL_COLUMNS, NUMERICAL_COLUMNS, true⟩ none)]⟩

/-- The blob written by `joblib.dump(preprocessing_pipeline, PIPELINE_FILE)`,
which in the notebook precedes `preprocessing_pipeline.fit`. -/
def persistedBlob : Blob := serializePipeline notebookPipeline

/-- Numeric entry of a column at row `i` (0 for out-of-range or
non-numeric entries), used to state per-row properties. -/
def atRow (col : List Value) (i : ℕ) : ℚ :=
  match col[i]? with
  | some (.num q) => q
  | _ => 0

/-! ### Concrete data used to instantiate the theorems -/

/-- The spec's MinMaxScaler example column `CARAT = [0.2, 0.5, 1.0]`. -/
def caratDS : Dataset :=
  ⟨[("CARAT", [.num (mkRat 1 5), .num (mkRat 1 2), .num 1])]⟩

/-- A constant numeric column. -/
def constDS : Dataset := ⟨[("X", [.num 5, .num 5, .num 5])]⟩

/-- The spec's explicit CUT vocabulary. -/
def cutVocab : List String := ["IDEAL", "PREMIUM", "VERY_GOOD", "GOOD", "FAIR"]

/-- The spec's OrdinalEncoder example column. -/
def cutDS : Dataset := ⟨[("CUT", [.str "IDEAL", .str "FAIR", .str "GOOD"])]⟩

def emptyDS : Dataset := ⟨[]⟩

def demoDS : Dataset := ⟨[("X", [.num 0, .num 2])]⟩

def demoPipe : Pipeline := ⟨[("MMS", .mms ⟨["X"], ["XN"], false⟩ none)]⟩

def demoFittedPipe : Pipeline :=
  ⟨[("MMS", .mms ⟨["X"], ["XN"], false⟩ (some [("X", (0, 2))]))]⟩

/-- A one-row training dataset with all nine feature columns of the
notebooks' diamonds schema. -/
def demoTrainDS : Dataset :=
  ⟨[("CUT", [.str "IDEAL"]), ("COLOR", [.str "D"]), ("CLARITY", [.str "IF"]),
    ("CARAT", [.num 1]), ("DEPTH", [.num 1]), ("TABLE_PCT", [.num 1]),
    ("X", [.num 1]), ("Y", [.num 1]), ("Z", [.num 1])]⟩

/-- The notebooks' pipeline after fitting on `demoTrainDS`. -/
def notebookFittedDemo : Pipeline :=
  ⟨[("OE", .oe ⟨CATEGORICAL_COLUMNS, CATEGORICAL_COLUMNS_OE, notebookCategories⟩
      (some [("CUT", ["IDEAL", "PREMIUM", "VERY_GOOD", "GOOD", "FAIR"]),
             ("COLOR", ["D", "E", "F", "G", "H", "I", "J"]),
             ("CLARITY", ["IF", "VVS1", "VVS2", "VS1", "VS2", "SI1", "SI2", "I1", "I2", "I3"])])),
    ("MMS", .mms ⟨NUMERICAL_COLUMNS, NUMERICAL_COLUMNS, true⟩
      (some [("CARAT", (1, 1)), ("DEPTH", (1, 1)), ("TABLE_PCT", (1, 1)),
             ("X", (1, 1)), ("Y", (1, 1)), ("Z", (1, 1))]))]⟩

/-! ### Basic lemmas -/

theorem getCol_setCol_self (d : Dataset) (c : String) (vs : List Value) :
    (d.setCol c vs).getCol c = some vs := by
  show lookupStr (setColList d.cols c vs) c = some vs
  induction d.cols with
  | nil => simp [setColList, lookupStr]
  | cons p rest ih =>
    by_cases h : p.1 = c
    · simp [setColList, lookupStr, h]
    · simp [setColList, lookupStr, h, ih]

theorem firstSeenAux_nodup_notmem (l : List String) :
    ∀ seen : List String,
      (firstSeenAux seen l).Nodup ∧ ∀ x ∈ firstSeenAux seen l, x ∉ seen := by
  induction l with
  | nil => intro seen; simp [firstSeenAux]
  | cons s rest ih =>
    intro seen
    by_cases h : s ∈ seen
    · simpa [firstSeenAux, h] using ih seen
    · have hrec := ih (s :: seen)
      refine ⟨?_, ?_⟩
      · simp only [firstSeenAux, h, if_false, List.nodup_cons]
        refine ⟨fun hmem => ?_, hrec.1⟩
        exact hrec.2 s hmem (List.mem_cons_self s seen)
      · intro x hx
        simp only [firstSeenAux, h, if_false, List.mem_cons] at hx
        rcases hx with rfl | hx
        · exact h
        · intro hxs
          exact hrec.2 x hx (List.mem_cons_of_mem s hxs)

theorem firstSeen_nodup (l : List String) : (firstSeen l).Nodup :=
  (firstSeenAux_nodup_notmem l []).1

theorem rankOf_eq_none_iff (V : List String) (s : String) :
    rankOf V s = none ↔ s ∉ V := by
  induction V with
  | nil => simp [rankOf]
  | cons a t ih =>
    by_cases h : a = s
    · simp [rankOf, h]
    · have hmap : (rankOf t s).map (· + 1) = none ↔ rankOf t s = none := by
        cases rankOf t s <;> simp
      simp only [rankOf, h, if_false, hmap, ih, List.mem_cons]
      constructor
      · intro hn hm
        rcases hm with rfl | hm
        · exact h rfl
        · exact hn hm
      · intro hn hm
        exact hn (Or.inr hm)

/-- On a duplicate-free vocabulary, the rank of the i-th category is i:
ranks are assigned by position, `0 .. len(V)-1`. -/
theorem rankOf_get (V : List String) (hV : V.Nodup) (i : ℕ) (hi : i < V.length) :
    rankOf V (V.get ⟨i, hi⟩) = some i := by
  induction V generalizing i with
  | nil => simp at hi
  | cons a t ih =>
    cases i with
    | zero => simp [rankOf]
    | succ j =>
      have hj : j < t.length := Nat.lt_of_succ_lt_succ hi
      have hget : (a :: t).get ⟨j + 1, hi⟩ = t.get ⟨j, hj⟩ := rfl
      have hne : a ≠ t.get ⟨j, hj⟩ := by
        intro hcontra
        have : a ∈ t := hcontra ▸ t.get_mem j hj
        exact (List.nodup_cons.mp hV).1 this
      rw [hget]
      have hrec := ih (List.nodup_cons.mp hV).2 j hj
      simp only [rankOf, hne, if_false, hrec]
      rfl

theorem encodeOrd_all_known (c : String) (V : List String) (ss : List String)
    (hall : ∀ s ∈ ss, s ∈ V) :
    encodeOrd c V ss = .ok (ss.map (fun s => .num ((rankOf V s).getD 0))) := by
  induction ss with
  | nil => simp [encodeOrd]
  | cons s rest ih =>
    have hs : s ∈ V := hall s (List.mem_cons_self s rest)
    obtain ⟨i, hi⟩ : ∃ i, rankOf V s = some i := by
      cases h : rankOf V s with
      | none => exact absurd ((rankOf_eq_none_iff V s).mp h) (by simp [hs])
      | some i => exact ⟨i, rfl⟩
    have ih' := ih (fun x hx => hall x (List.mem_cons_of_mem s hx))
    simp [encodeOrd, hi, ih', Except.map]

/-- A column containing a label outside the vocabulary makes ordinal
encoding fail with an `unknownCategory` error. -/
theorem encodeOrd_unknown (c : String) (V : List String) (ss : List String)
    (hunk : ∃ s ∈ ss, s ∉ V) :
    ∃ u, u ∉ V ∧ encodeOrd c V ss = .error (.unknownCategory c u) := by
  induction ss with
  | nil => simp at hunk
  | cons s rest ih =>
    by_cases hs : s ∈ V
    · obtain ⟨u, hu, hunot⟩ := hunk
      rcases List.mem_cons.mp hu with rfl | hu
      · exact absurd hs hunot
      · obtain ⟨i, hi⟩ : ∃ i, rankOf V s = some i := by
          cases h : rankOf V s with
          | none => exact absurd ((rankOf_eq_none_iff V s).mp h) (by simp [hs])
          | some i => exact ⟨i, rfl⟩
        obtain ⟨u', hu', heq⟩ := ih ⟨u, hu, hunot⟩
        exact ⟨u', hu', by simp [encodeOrd, hi, heq, Except.map]⟩
    · have hrank : rankOf V s = none := (rankOf_eq_none_iff V s).mpr hs
      exact ⟨s, hs, by simp [encodeOrd, hrank]⟩

theorem firstUnknown_some (V : List String) (ss : List String)
    (hunk : ∃ s ∈ ss, s ∉ V) :
    ∃ u, u ∉ V ∧ firstUnknown V ss = some u := by
  induction ss with
  | nil => simp at hunk
  | cons s rest ih =>
    by_cases hs : s ∈ V
    · obtain ⟨u, hu, hunot⟩ := hunk
      rcases List.mem_cons.mp hu with rfl | hu
      · exact absurd hs hunot
      · obtain ⟨u', hu', heq⟩ := ih ⟨u, hu, hunot⟩
        exact ⟨u', hu', by simp [firstUnknown, hs, heq]⟩
    · exact ⟨s, hs, by simp [firstUnknown, hs]⟩

/-- On a label absent from a list, the indicator sum over that list is 0. -/
theorem sum_indicator_notmem (s : String) (V : List String) (hs : s ∉ V) :
    (V.map (fun cat => if s = cat then (1 : ℚ) else 0)).sum = 0 := by
  induction V with
  | nil => simp
  | cons a t ih =>
    have hne : s ≠ a := fun h => hs (h ▸ List.mem_cons_self a t)
    have hst : s ∉ t := fun h => hs (List.mem_cons_of_mem a h)
    simp [hne, ih hst]

/-- On a duplicate-free vocabulary containing the label, the indicator sum
is exactly 1: one-hot rows sum to 1. -/
theorem sum_indicator_mem (s : String) (V : List String) (hV : V.Nodup)
    (hs : s ∈ V) :
    (V.map (fun cat => if s = cat then (1 : ℚ) else 0)).sum = 1 := by
  induction V with
  | nil => simp at hs
  | cons a t ih =>
    rcases List.nodup_cons.mp hV with ⟨hat, ht⟩
    rcases List.mem_cons.mp hs with rfl | hst
    · simp [sum_indicator_notmem s t hat]
    · have hne : s ≠ a := fun h => hat (h ▸ hst)
      simp [hne, ih ht hst]

/-- A step returned by a successful `stepFit` carries fitted state. -/
theorem stepFit_fitted (s s' : Step) (d : Dataset)
    (h : stepFit s d = .ok s') : stepFittedB s' = true := by
  cases s with
  | mms cfg st =>
    simp only [stepFit, Except.map] at h
    cases hf : mmsFit cfg d with
    | error e => rw [hf] at h; simp [Except.map] at h
    | ok stt =>
      rw [hf] at h; simp [Except.map] at h
      rw [← h]; rfl
  | oe cfg st =>
    simp only [stepFit, Except.map] at h
    cases hf : oeFit cfg d with
    | error e => rw [hf] at h; simp [Except.map] at h
    | ok stt =>
      rw [hf] at h; simp [Except.map] at h
      rw [← h]; rfl
  | ohe cfg st =>
    simp only [stepFit, Except.map] at h
    cases hf : oheFit cfg d with
    | error e => rw [hf] at h; simp [Except.map] at h
    | ok stt =>
      rw [hf] at h; simp [Except.map] at h
      rw [← h]; rfl

/-- Every step of a pipeline produced by a successful fit is fitted. -/
theorem fitAux_fitted (steps : List (String × Step)) :
    ∀ (d : Dataset) (steps' : List (String × Step)) (dout : Dataset),
      pipelineFitTransformAux steps d = .ok (steps', dout) →
      ∀ x ∈ steps', stepFittedB x.2 = true := by
  induction steps with
  | nil =>
    intro d steps' dout h x hx
    simp only [pipelineFitTransformAux] at h
    cases h
    simp at hx
  | cons ns rest ih =>
    intro d steps' dout h x hx
    obtain ⟨n, s⟩ := ns
    simp only [pipelineFitTransformAux] at h
    split at h
    · cases h
    · rename_i s' hfit
      split at h
      · cases h
      · rename_i d' htr
        split at h
        · cases h
        · rename_i rest' dmid hrec
          cases h
          rcases List.mem_cons.mp hx with rfl | hx
          · exact stepFit_fitted s s' d hfit
          · exact ih d' rest' dout hrec x hx

/-- Core of the fit/fit_transform agreement: a successful combined
fit-and-transform pass leaves fitted steps whose plain `transform` on the
same input reproduces the same final dataset. -/
theorem fitAux_transformAux (steps : List (String × Step)) :
    ∀ (d : Dataset) (steps' : List (String × Step)) (dout : Dataset),
      pipelineFitTransformAux steps d = .ok (steps', dout) →
      pipelineTransformAux steps' d = .ok dout := by
  induction steps with
  | nil =>
    intro d steps' dout h
    simp only [pipelineFitTransformAux] at h
    cases h
    rfl
  | cons ns rest ih =>
    intro d steps' dout h
    obtain ⟨n, s⟩ := ns
    simp only [pipelineFitTransformAux] at h
    split at h
    · cases h
    · rename_i s' hfit
      split at h
      · cases h
      · rename_i d' htr
        split at h
        · cases h
        · rename_i rest' dmid hrec
          cases h
          simp only [pipelineTransformAux, htr]
          exact ih d' rest' dout hrec

/-- Serialization round trip: deserializing a serialized pipeline
reconstructs it exactly. -/
theorem deserialize_serialize (p : Pipeline) :
    deserializePipeline (serializePipeline p) = .ok p := by
  obtain ⟨steps⟩ := p
  show (((steps.map (fun ns => (ns.1, stepTypeName ns.2, ns.2))).mapM
      deserializeEntry).map (fun l => (⟨l⟩ : Pipeline))) = .ok ⟨steps⟩
  have key : (steps.map (fun ns => (ns.1, stepTypeName ns.2, ns.2))).mapM
      deserializeEntry = .ok steps := by
    induction steps with
    | nil => rfl
    | cons ns rest ih =>
      simp only [List.map_cons, List.mapM_cons, deserializeEntry, if_pos rfl, ih]
      rfl
  rw [key]
  rfl

/-- With `clip`, every scaled value lies in `[0, 1]`. -/
theorem mmsScale_clip_mem (mn mx v : ℚ) :
    0 ≤ mmsScale mn mx true v ∧ mmsScale mn mx true v ≤ 1 := by
  unfold mmsScale
  constructor
  · exact le_max_left 0 _
  · exact max_le (by norm_num) (min_le_left 1 _)

/-- A constant fitted column (`min = max`) scales every value to 0,
with or without `clip`. -/
theorem mmsScale_const (mn : ℚ) (clip : Bool) (v : ℚ) :
    mmsScale mn mn clip v = 0 := by
  unfold mmsScale
  cases clip <;> simp

theorem mkRat_div (n : ℤ) (d : ℕ) : (mkRat n d : ℚ) = (n : ℚ) / d := by
  rw [Rat.mkRat_eq_divInt, Rat.divInt_eq_div]
  norm_num

/-- Shape of a fitted single-column MinMaxScaler transform: the output
column is the scaled input column. -/
theorem mms_single_transform (ci co : String) (mn mx : ℚ) (clip : Bool)
    (d : Dataset) (qs : List ℚ) (hcol : colNums d ci = .ok qs) :
    stepTransform (.mms ⟨[ci], [co], clip⟩ (some [(ci, (mn, mx))])) d
      = .ok (d.setCol co (qs.map (fun q => .num (mmsScale mn mx clip q)))) := by
  simp [stepTransform, List.zip, mmsTransformCols, lookupStr, hcol]

/-- Shape of a fitted single-column OrdinalEncoder transform with all
labels in the vocabulary. -/
theorem oe_single_transform (ci co : String) (V : List String) (d : Dataset)
    (ss : List String) (hcol : colStrs d ci = .ok ss)
    (hall : ∀ s ∈ ss, s ∈ V) :
    stepTransform (.oe ⟨[ci], [co], [(ci, V)]⟩ (some [(ci, V)])) d
      = .ok (d.setCol co (ss.map (fun s => .num ((rankOf V s).getD 0)))) := by
  simp [stepTransform, List.zip, oeTransformCols, lookupStr, hcol,
    encodeOrd_all_known ci V ss hall]

/-- Shape of a fitted single-column OneHotEncoder transform with all
labels in the vocabulary: one indicator column per vocabulary entry is
added. -/
theorem ohe_single_transform (ci co : String) (V : List String) (d : Dataset)
    (ss : List String) (hcol : colStrs d ci = .ok ss)
    (hknown : firstUnknown V ss = none) :
    stepTransform (.ohe ⟨[ci], [co]⟩ (some [(ci, V)])) d
      = .ok (d.addCols (oheCols co V ss)) := by
  simp [stepTransform, List.zip, oheTransformCols, lookupStr, hcol, hknown]

/-- The i-th row of the indicator column for `cat` is 1 exactly when the
i-th label of the input column is `cat`. -/
theorem atRow_oheIndicator (ss : List String) (cat : String) (i : ℕ)
    (hi : i < ss.length) :
    atRow (oheIndicator ss cat) i = if ss.get ⟨i, hi⟩ = cat then 1 else 0 := by
  induction ss generalizing i with
  | nil => simp at hi
  | cons s rest ih =>
    cases i with
    | zero =>
      by_cases h : s = cat <;> simp [atRow, oheIndicator, h]
    | succ j =>
      have hj : j < rest.length := Nat.lt_of_succ_lt_succ hi
      have hrec := ih j hj
      simpa [atRow, oheIndicator] using hrec

/-! ### Claim theorems -/

/-- C1: for every dataset D and every fitted pipeline P, serializing P to
a blob and deserializing the blob reconstructs a pipeline that is still
fitted (so it can transform without re-fitting) and whose `transform` on D
is identical to `P.transform(D)`. -/
theorem serialize_roundtrip_transform (P : Pipeline) (D : Dataset)
    (h : P.fitted = true) :
    ∃ P', deserializePipeline (serializePipeline P) = .ok P' ∧
      P'.fitted = true ∧ pipelineTransform P' D = pipelineTransform P D :=
  ⟨P, deserialize_serialize P, h, rfl⟩

theorem serialize_roundtrip_transform_witness :
    demoFittedPipe.fitted = true ∧
    ∃ P', deserializePipeline (serializePipeline demoFittedPipe) = .ok P' ∧
      P'.fitted = true ∧
      pipelineTransform P' demoDS = pipelineTransform demoFittedPipe demoDS :=
  ⟨by decide, serialize_roundtrip_transform demoFittedPipe demoDS (by decide)⟩

/-- C2: a MinMaxScaler fitted with per-column (min, max) maps each value v
of the column to (v - min) / (max - min) in the output column; in
particular fit + transform on CARAT = [0.2, 0.5, 1.0] yields
CARAT_NORM = [0.0, 0.375, 1.0]. -/
theorem minmax_scaler_formula (ci co : String) (mn mx : ℚ) (d : Dataset)
    (qs : List ℚ) (hne : mx ≠ mn) (hcol : colNums d ci = .ok qs) :
    stepTransform (.mms ⟨[ci], [co], false⟩ (some [(ci, (mn, mx))])) d
      = .ok (d.setCol co (qs.map (fun q => .num ((q - mn) / (mx - mn))))) ∧
    stepFit (.mms ⟨["CARAT"], ["CARAT_NORM"], false⟩ none) caratDS
      = .ok (.mms ⟨["CARAT"], ["CARAT_NORM"], false⟩
          (some [("CARAT", (mkRat 1 5, 1))])) ∧
    stepTransform (.mms ⟨["CARAT"], ["CARAT_NORM"], false⟩
        (some [("CARAT", (mkRat 1 5, 1))])) caratDS
      = .ok ⟨[("CARAT", [.num (mkRat 1 5), .num (mkRat 1 2), .num 1]),
             ("CARAT_NORM", [.num 0, .num (3/8), .num 1])]⟩ := by
  refine ⟨?_, by decide, ?_⟩
  · rw [mms_single_transform ci co mn mx false d qs hcol]
    have hfun : ∀ q : ℚ, mmsScale mn mx false q = (q - mn) / (mx - mn) := by
      intro q
      simp [mmsScale, hne]
    simp [hfun]
  · rw [mms_single_transform "CARAT" "CARAT_NORM" (mkRat 1 5) 1 false caratDS
          [mkRat 1 5, mkRat 1 2, 1] (by decide)]
    have h5 : (mkRat 1 5 : ℚ) = 1/5 := by rw [mkRat_div]; norm_num
    have h2 : (mkRat 1 2 : ℚ) = 1/2 := by rw [mkRat_div]; norm_num
    simp only [caratDS, Dataset.setCol, setColList, List.map, mmsScale, h5, h2]
    norm_num
    decide

theorem minmax_scaler_formula_witness :
    ((1 : ℚ) ≠ mkRat 1 5) ∧
    colNums caratDS "CARAT" = .ok [mkRat 1 5, mkRat 1 2, 1] ∧
    (stepTransform (.mms ⟨["CARAT"], ["CARAT_NORM"], false⟩
        (some [("CARAT", (mkRat 1 5, 1))])) caratDS
      = .ok (caratDS.setCol "CARAT_NORM" ([mkRat 1 5, mkRat 1 2, 1].map
          (fun q => .num ((q - mkRat 1 5) / (1 - mkRat 1 5))))) ∧
    stepFit (.mms ⟨["CARAT"], ["CARAT_NORM"], false⟩ none) caratDS
      = .ok (.mms ⟨["CARAT"], ["CARAT_NORM"], false⟩
          (some [("CARAT", (mkRat 1 5, 1))])) ∧
    stepTransform (.mms ⟨["CARAT"], ["CARAT_NORM"], false⟩
        (some [("CARAT", (mkRat 1 5, 1))])) caratDS
      = .ok ⟨[("CARAT", [.num (mkRat 1 5), .num (mkRat 1 2), .num 1]),
             ("CARAT_NORM", [.num 0, .num (3/8), .num 1])]⟩) :=
  ⟨by decide, by decide,
    minmax_scaler_formula "CARAT" "CARAT_NORM" (mkRat 1 5) 1 caratDS
      [mkRat 1 5, mkRat 1 2, 1] (by decide) (by decide)⟩

/-- C3: an OrdinalEncoder constructed with an explicit vocabulary V
assigns ranks by position in V (0..len(V)-1), and transform of a column
whose values all lie in V yields those positional ranks; in particular
["IDEAL","FAIR","GOOD"] under ["IDEAL","PREMIUM","VERY_GOOD","GOOD","FAIR"]
encodes to [0, 4, 3]. -/
theorem ordinal_encoder_ranks (ci co : String) (V : List String)
    (d : Dataset) (ss : List String) (hcol : colStrs d ci = .ok ss)
    (hall : ∀ s ∈ ss, s ∈ V) :
    stepTransform (.oe ⟨[ci], [co], [(ci, V)]⟩ (some [(ci, V)])) d
      = .ok (d.setCol co (ss.map (fun s => .num ((rankOf V s).getD 0)))) ∧
    (V.Nodup → ∀ (i : ℕ) (hi : i < V.length),
      rankOf V (V.get ⟨i, hi⟩) = some i) ∧
    (stepFit (.oe ⟨["CUT"], ["CUT_OE"], [("CUT", cutVocab)]⟩ none) cutDS).bind
        (fun s => stepTransform s cutDS)
      = .ok ⟨[("CUT", [.str "IDEAL", .str "FAIR", .str "GOOD"]),
             ("CUT_OE", [.num 0, .num 4, .num 3])]⟩ :=
  ⟨oe_single_transform ci co V d ss hcol hall,
   fun hV i hi => rankOf_get V hV i hi,
   by decide⟩

theorem ordinal_encoder_ranks_witness :
    colStrs cutDS "CUT" = .ok ["IDEAL", "FAIR", "GOOD"] ∧
    (∀ s ∈ ["IDEAL", "FAIR", "GOOD"], s ∈ cutVocab) ∧
    (stepTransform (.oe ⟨["CUT"], ["CUT_OE"], [("CUT", cutVocab)]⟩
        (some [("CUT", cutVocab)])) cutDS
      = .ok (cutDS.setCol "CUT_OE" (["IDEAL", "FAIR", "GOOD"].map
          (fun s => .num ((rankOf cutVocab s).getD 0)))) ∧
    (cutVocab.Nodup → ∀ (i : ℕ) (hi : i < cutVocab.length),
      rankOf cutVocab (cutVocab.get ⟨i, hi⟩) = some i) ∧
    (stepFit (.oe ⟨["CUT"], ["CUT_OE"], [("CUT", cutVocab)]⟩ none) cutDS).bind
        (fun s => stepTransform s cutDS)
      = .ok ⟨[("CUT", [.str "IDEAL", .str "FAIR", .str "GOOD"]),
             ("CUT_OE", [.num 0, .num 4, .num 3])]⟩) :=
  ⟨by decide, by decide,
    ordinal_encoder_ranks "CUT" "CUT_OE" cutVocab cutDS
      ["IDEAL", "FAIR", "GOOD"] (by decide) (by decide)⟩

/-- C4: a OneHotEncoder whose fitted vocabulary for an input column has k
distinct categories produces exactly k indicator output columns for that
column, and for every row whose label is in the vocabulary the k
indicators of that row sum to exactly 1. -/
theorem one_hot_k_columns_row_sum (ci co : String) (strs ss : List String)
    (d : Dataset) (i : ℕ) (hi : i < ss.length)
    (hmem : ss.get ⟨i, hi⟩ ∈ firstSeen strs)
    (hcol : colStrs d ci = .ok ss)
    (hknown : firstUnknown (firstSeen strs) ss = none) :
    stepTransform (.ohe ⟨[ci], [co]⟩ (some [(ci, firstSeen strs)])) d
      = .ok (d.addCols (oheCols co (firstSeen strs) ss)) ∧
    (oheCols co (firstSeen strs) ss).length = (firstSeen strs).length ∧
    (firstSeen strs).Nodup ∧
    ((oheCols co (firstSeen strs) ss).map (fun p => atRow p.2 i)).sum = 1 := by
  refine ⟨ohe_single_transform ci co (firstSeen strs) d ss hcol hknown,
    by simp [oheCols], firstSeen_nodup strs, ?_⟩
  have hmap : (oheCols co (firstSeen strs) ss).map (fun p => atRow p.2 i)
      = (firstSeen strs).map
          (fun cat => if ss.get ⟨i, hi⟩ = cat then (1 : ℚ) else 0) := by
    unfold oheCols
    rw [List.map_map]
    apply List.map_congr_left
    intro cat _
    exact atRow_oheIndicator ss cat i hi
  rw [hmap]
  exact sum_indicator_mem _ _ (firstSeen_nodup strs) hmem

theorem one_hot_k_columns_row_sum_witness :
    (["B", "A"].get ⟨0, by decide⟩ ∈ firstSeen ["A", "B", "A"]) ∧
    colStrs ⟨[("C", [.str "B", .str "A"])]⟩ "C" = .ok ["B", "A"] ∧
    firstUnknown (firstSeen ["A", "B", "A"]) ["B", "A"] = none ∧
    (stepTransform (.ohe ⟨["C"], ["C_OHE"]⟩ (some [("C", firstSeen ["A", "B", "A"])]))
        ⟨[("C", [.str "B", .str "A"])]⟩
      = .ok ((⟨[("C", [.str "B", .str "A"])]⟩ : Dataset).addCols
          (oheCols "C_OHE" (firstSeen ["A", "B", "A"]) ["B", "A"])) ∧
    (oheCols "C_OHE" (firstSeen ["A", "B", "A"]) ["B", "A"]).length
      = (firstSeen ["A", "B", "A"]).length ∧
    (firstSeen ["A", "B", "A"]).Nodup ∧
    ((oheCols "C_OHE" (firstSeen ["A", "B", "A"]) ["B", "A"]).map
        (fun p => atRow p.2 0)).sum = 1) :=
  ⟨by decide, by decide, by decide,
    one_hot_k_columns_row_sum "C" "C_OHE" ["A", "B", "A"] ["B", "A"]
      ⟨[("C", [.str "B", .str "A"])]⟩ 0 (by decide) (by decide) (by decide)
      (by decide)⟩

/-- C5: for every dataset D and pipeline P, `fit(D)` followed by
`transform(D)` yields a dataset identical to `fit_transform(D)` in a
single call (during fit each step is fit then immediately transformed in
declared order, each step's output feeding the next step's input). -/
theorem fit_then_transform_eq_fit_transform (P P' : Pipeline) (D : Dataset)
    (h : pipelineFit P D = .ok P') :
    pipelineTransform P' D = (pipelineFitTransform P D).map Prod.snd := by
  unfold pipelineFit at h
  cases hft : pipelineFitTransformAux P.steps D with
  | error e =>
    rw [hft] at h
    simp [Except.map] at h
  | ok r =>
    obtain ⟨steps', dout⟩ := r
    rw [hft] at h
    simp only [Except.map] at h
    cases h
    show pipelineTransformAux steps' D = _
    rw [fitAux_transformAux P.steps D steps' dout hft]
    unfold pipelineFitTransform
    rw [hft]
    rfl

theorem fit_then_transform_eq_fit_transform_witness :
    pipelineFit demoPipe demoDS = .ok demoFittedPipe ∧
    pipelineTransform demoFittedPipe demoDS
      = (pipelineFitTransform demoPipe demoDS).map Prod.snd :=
  ⟨by decide,
    fit_then_transform_eq_fit_transform demoPipe demoFittedPipe demoDS (by decide)⟩

/-- C6: every value produced by a fitted MinMaxScaler with clip=true lies
in [0, 1] — both as a fact about the scaling map for all inputs (including
values outside the fitted [min, max] range, which are clamped) and for
every value written to the output column by transform. -/
theorem minmax_clip_bounds (ci co : String) (st : MMSState) (d d' : Dataset)
    (h : stepTransform (.mms ⟨[ci], [co], true⟩ (some st)) d = .ok d') :
    (∀ mn mx v : ℚ, 0 ≤ mmsScale mn mx true v ∧ mmsScale mn mx true v ≤ 1) ∧
    ∃ vs', d'.getCol co = some vs' ∧
      ∀ v ∈ vs', ∃ q : ℚ, v = .num q ∧ 0 ≤ q ∧ q ≤ 1 := by
  refine ⟨fun mn mx v => mmsScale_clip_mem mn mx v, ?_⟩
  simp only [stepTransform, List.zip, List.zipWith, mmsTransformCols] at h
  split at h
  · cases h
  · rename_i mn mx hlk
    split at h
    · cases h
    · rename_i qs hcn
      cases h
      refine ⟨(qs.map (fun q => .num (mmsScale mn mx true q))),
        getCol_setCol_self d co _, ?_⟩
      intro v hv
      rw [List.mem_map] at hv
      obtain ⟨q, _, rfl⟩ := hv
      exact ⟨mmsScale mn mx true q, rfl,
        (mmsScale_clip_mem mn mx q).1, (mmsScale_clip_mem mn mx q).2⟩

theorem minmax_clip_bounds_witness :
    stepTransform (.mms ⟨["X"], ["XN"], true⟩ (some [("X", (1, 1))]))
        ⟨[("X", [.num 5, .num (-3)])]⟩
      = .ok ⟨[("X", [.num 5, .num (-3)]), ("XN", [.num 0, .num 0])]⟩ ∧
    ((∀ mn mx v : ℚ, 0 ≤ mmsScale mn mx true v ∧ mmsScale mn mx true v ≤ 1) ∧
    ∃ vs', (⟨[("X", [.num 5, .num (-3)]), ("XN", [.num 0, .num 0])]⟩ :
        Dataset).getCol "XN" = some vs' ∧
      ∀ v ∈ vs', ∃ q : ℚ, v = .num q ∧ 0 ≤ q ∧ q ≤ 1) :=
  ⟨by decide,
    minmax_clip_bounds "X" "XN" [("X", (1, 1))] ⟨[("X", [.num 5, .num (-3)])]⟩
      ⟨[("X", [.num 5, .num (-3)]), ("XN", [.num 0, .num 0])]⟩ (by decide)⟩

/-- C7: a column constant in the fit dataset (max = min) transforms to 0
for every row — the defined division-by-zero policy — both for the scaling
map at any input and end-to-end on a constant column. -/
theorem minmax_constant_column_zero :
    (∀ (mn : ℚ) (clip : Bool) (v : ℚ), mmsScale mn mn clip v = 0) ∧
    (stepFit (.mms ⟨["X"], ["X_NORM"], false⟩ none) constDS).bind
        (fun s => stepTransform s constDS)
      = .ok ⟨[("X", [.num 5, .num 5, .num 5]),
             ("X_NORM", [.num 0, .num 0, .num 0])]⟩ :=
  ⟨mmsScale_const, by decide⟩

/-- C8: calling transform on any un-fit transform step, or on a pipeline
none of whose steps has fitted state, fails fast with a "not fitted" error
naming the first (offending) step, for every dataset; transform never
proceeds before fit. -/
theorem transform_before_fit_fails (n : String) (s : Step)
    (rest : List (String × Step)) (d : Dataset)
    (hall : ∀ x ∈ ((n, s) :: rest : List (String × Step)),
      stepFittedB x.2 = false) :
    stepTransform s d = .error .notFitted ∧
    pipelineTransform ⟨(n, s) :: rest⟩ d = .error (.atStep n .notFitted) := by
  have hs : stepFittedB s = false := hall (n, s) (List.mem_cons_self _ _)
  have hstep : stepTransform s d = .error .notFitted := by
    cases s with
    | mms cfg st =>
      cases st with
      | none => rfl
      | some stt => simp [stepFittedB] at hs
    | oe cfg st =>
      cases st with
      | none => rfl
      | some stt => simp [stepFittedB] at hs
    | ohe cfg st =>
      cases st with
      | none => rfl
      | some stt => simp [stepFittedB] at hs
  refine ⟨hstep, ?_⟩
  simp [pipelineTransform, pipelineTransformAux, hstep]

theorem transform_before_fit_fails_witness :
    (∀ x ∈ (("OE", Step.oe ⟨CATEGORICAL_COLUMNS, CATEGORICAL_COLUMNS_OE,
          notebookCategories⟩ none)
        :: [("MMS", Step.mms ⟨NUMERICAL_COLUMNS, NUMERICAL_COLUMNS, true⟩ none)] :
        List (String × Step)), stepFittedB x.2 = false) ∧
    (stepTransform (.oe ⟨CATEGORICAL_COLUMNS, CATEGORICAL_COLUMNS_OE,
        notebookCategories⟩ none) emptyDS = .error .notFitted ∧
    pipelineTransform
        ⟨("OE", .oe ⟨CATEGORICAL_COLUMNS, CATEGORICAL_COLUMNS_OE,
            notebookCategories⟩ none)
          :: [("MMS", .mms ⟨NUMERICAL_COLUMNS, NUMERICAL_COLUMNS, true⟩ none)]⟩
        emptyDS
      = .error (.atStep "OE" .notFitted)) :=
  ⟨by decide,
    transform_before_fit_fails "OE"
      (.oe ⟨CATEGORICAL_COLUMNS, CATEGORICAL_COLUMNS_OE, notebookCategories⟩ none)
      [("MMS", .mms ⟨NUMERICAL_COLUMNS, NUMERICAL_COLUMNS, true⟩ none)]
      emptyDS (by decide)⟩

/-- C9: a fitted OrdinalEncoder — and a OneHotEncoder, whose modelled
handle-unknown policy is to error — fails with an "unknown category" error
on any dataset whose encoded column contains a value absent from the
vocabulary fixed at fit time, rather than mapping it to a default rank or
indicator. -/
theorem unknown_category_fails (ci co : String) (V : List String)
    (d : Dataset) (ss : List String) (hcol : colStrs d ci = .ok ss)
    (hunk : ∃ s ∈ ss, s ∉ V) :
    (∃ u, u ∉ V ∧
      stepTransform (.oe ⟨[ci], [co], [(ci, V)]⟩ (some [(ci, V)])) d
        = .error (.unknownCategory ci u)) ∧
    (∃ u, u ∉ V ∧
      stepTransform (.ohe ⟨[ci], [co]⟩ (some [(ci, V)])) d
        = .error (.unknownCategory ci u)) := by
  constructor
  · obtain ⟨u, hu, heq⟩ := encodeOrd_unknown ci V ss hunk
    exact ⟨u, hu,
      by simp [stepTransform, List.zip, oeTransformCols, lookupStr, hcol, heq]⟩
  · obtain ⟨u, hu, heq⟩ := firstUnknown_some V ss hunk
    exact ⟨u, hu,
      by simp [stepTransform, List.zip, oheTransformCols, lookupStr, hcol, heq]⟩

theorem unknown_category_fails_witness :
    colStrs ⟨[("C1", [.str "A", .str "Z"])]⟩ "C1" = .ok ["A", "Z"] ∧
    (∃ s ∈ ["A", "Z"], s ∉ ["A", "B"]) ∧
    ((∃ u, u ∉ ["A", "B"] ∧
      stepTransform (.oe ⟨["C1"], ["C1_E"], [("C1", ["A", "B"])]⟩
          (some [("C1", ["A", "B"])])) ⟨[("C1", [.str "A", .str "Z"])]⟩
        = .error (.unknownCategory "C1" u)) ∧
    (∃ u, u ∉ ["A", "B"] ∧
      stepTransform (.ohe ⟨["C1"], ["C1_E"]⟩ (some [("C1", ["A", "B"])]))
          ⟨[("C1", [.str "A", .str "Z"])]⟩
        = .error (.unknownCategory "C1" u))) :=
  ⟨by decide, by decide,
    unknown_category_fails "C1" "C1_E" ["A", "B"]
      ⟨[("C1", [.str "A", .str "Z"])]⟩ ["A", "Z"] (by decide) (by decide)⟩

/-- C10: the blob the feature-transformation notebook persists is
serialized before fit, so the loaded pipeline is un-fit: it deserializes
back to the un-fit notebook pipeline, transform on it fails with a
not-fitted error at step "OE" for every dataset, and only after the
modeling notebook's successful re-fit is the resulting pipeline fitted. -/
theorem persisted_pipeline_unfit (Dt : Dataset) (P' : Pipeline)
    (hfit : pipelineFit notebookPipeline Dt = .ok P') :
    deserializePipeline persistedBlob = .ok notebookPipeline ∧
    notebookPipeline.fitted = false ∧
    (∀ D, pipelineTransform notebookPipeline D
      = .error (.atStep "OE" .notFitted)) ∧
    P'.fitted = true := by
  refine ⟨deserialize_serialize notebookPipeline, by decide, fun D => rfl, ?_⟩
  unfold pipelineFit at hfit
  cases hft : pipelineFitTransformAux notebookPipeline.steps Dt with
  | error e =>
    rw [hft] at hfit
    simp [Except.map] at hfit
  | ok r =>
    obtain ⟨steps', dout⟩ := r
    rw [hft] at hfit
    simp only [Except.map] at hfit
    cases hfit
    show (Pipeline.mk steps').fitted = true
    unfold Pipeline.fitted
    rw [List.all_eq_true]
    intro x hx
    exact fitAux_fitted notebookPipeline.steps Dt steps' dout hft x hx

theorem persisted_pipeline_unfit_witness :
    pipelineFit notebookPipeline demoTrainDS = .ok notebookFittedDemo ∧
    (deserializePipeline persistedBlob = .ok notebookPipeline ∧
    notebookPipeline.fitted = false ∧
    (∀ D, pipelineTransform notebookPipeline D
      = .error (.atStep "OE" .notFitted)) ∧
    notebookFittedDemo.fitted = true) :=
  ⟨by decide, persisted_pipeline_unfit demoTrainDS notebookFittedDemo (by decide)⟩

end SnowPipe
